import Mathlib

/-!
Verification of the learning-rate scheduler library (`learning_rates.py`).

Each scheduler is a Python dataclass whose `__call__` maps an iteration
index to a learning rate.  We embed each scheduler as a Lean structure
whose fields mirror the dataclass fields, and each `__call__` as a Lean
function on the structure.  Learning rates are modelled as real numbers;
iteration counters and integer hyperparameters as naturals.  Calls that
can raise in Python (division by zero, a failing `assert`, an infinite
loop) are modelled with `Option`: `none` means the Python call does not
return a value.
-/

open Real

/-- Embeds the `CosineScheduler` dataclass: cosine annealing with linear
warmup.  Field names follow the source. -/
structure CosineScheduler where
  max_lr : ℝ
  min_lr : ℝ
  warmup_iters : ℕ
  max_iters : ℕ

/-- The dataclass constructor: Python dataclasses perform no validation,
so construction always succeeds.  Modelled as `Except` to make the
absence of a construction-time rejection explicit. -/
def CosineScheduler.construct (max_lr min_lr : ℝ) (warmup_iters max_iters : ℕ) :
    Except String CosineScheduler :=
  Except.ok ⟨max_lr, min_lr, warmup_iters, max_iters⟩

/-- The value `decay_ratio = (iteration - warmup_iters) / (max_iters - warmup_iters)`
computed in the middle branch of `CosineScheduler.__call__` (real division). -/
noncomputable def CosineScheduler.decay_ratio (s : CosineScheduler) (t : ℕ) : ℝ :=
  ((t : ℝ) - s.warmup_iters) / ((s.max_iters : ℝ) - s.warmup_iters)

/-- Embeds `CosineScheduler.__call__`.  The three branches follow the
source: linear warmup for `t < warmup_iters`, the constant `min_lr` for
`t > max_iters`, and otherwise the cosine decay.  In the last branch the
Python code divides by `max_iters - warmup_iters` (a `ZeroDivisionError`
when they are equal, modelled as `none`) and then asserts
`0 <= decay_ratio <= 1` (an `AssertionError` when violated, modelled as
`none`). -/
noncomputable def CosineScheduler.call (s : CosineScheduler) (t : ℕ) : Option ℝ :=
  if t < s.warmup_iters then some (s.max_lr * t / s.warmup_iters)
  else if t > s.max_iters then some s.min_lr
  else if s.max_iters = s.warmup_iters then none
  else if 0 ≤ s.decay_ratio t ∧ s.decay_ratio t ≤ 1 then
    some (s.min_lr + 0.5 * (1 + Real.cos (Real.pi * s.decay_ratio t)) * (s.max_lr - s.min_lr))
  else none

/-- C2: the source performs no construction-time validation: the
inconsistent configuration `warmup_iters = max_iters = 10` is accepted by
the constructor, and the query at iteration 10 then fails with a
division by zero (the claim says construction is rejected instead). -/
theorem cosine_construct_no_validation :
    CosineScheduler.construct 1 0 10 10 = Except.ok ⟨1, 0, 10, 10⟩ ∧
      CosineScheduler.call ⟨1, 0, 10, 10⟩ 10 = none := by
  constructor
  · rfl
  · simp [CosineScheduler.call]

/-- C3: for a configuration with `0 < warmup_iters < max_iters`, the
cosine scheduler returns 0 at iteration 0, `max_lr` at the warmup
boundary, `min_lr` at `max_iters`, and exactly `min_lr` for every
iteration beyond `max_iters`. -/
theorem cosine_boundary_values (s : CosineScheduler) (t : ℕ)
    (hw : 0 < s.warmup_iters) (hm : s.warmup_iters < s.max_iters) (ht : s.max_iters < t) :
    s.call 0 = some 0 ∧ s.call s.warmup_iters = some s.max_lr ∧
      s.call s.max_iters = some s.min_lr ∧ s.call t = some s.min_lr := by
  have hMw : (s.max_iters : ℝ) - s.warmup_iters ≠ 0 := by
    have : (s.warmup_iters : ℝ) < s.max_iters := by exact_mod_cast hm
    linarith
  refine ⟨?_, ?_, ?_, ?_⟩
  · rw [CosineScheduler.call, if_pos hw]
    simp
  · have hr : s.decay_ratio s.warmup_iters = 0 := by
      rw [CosineScheduler.decay_ratio, sub_self, zero_div]
    rw [CosineScheduler.call, if_neg (lt_irrefl _), if_neg (by omega),
      if_neg (by omega), if_pos (by rw [hr]; norm_num)]
    rw [hr]
    norm_num
  · have hr : s.decay_ratio s.max_iters = 1 := by
      rw [CosineScheduler.decay_ratio, div_self hMw]
    rw [CosineScheduler.call, if_neg (by omega), if_neg (lt_irrefl _),
      if_neg (by omega), if_pos (by rw [hr]; norm_num)]
    rw [hr, mul_one, Real.cos_pi]
    norm_num
  · rw [CosineScheduler.call, if_neg (by omega), if_pos ht]

/-- C3 witness: the boundary values at the concrete configuration
`max_lr = 1, min_lr = 0, warmup_iters = 1, max_iters = 2`, checked
beyond `max_iters` at iteration 3. -/
theorem cosine_boundary_values_witness :
    0 < (1 : ℕ) ∧ (1 : ℕ) < 2 ∧ (2 : ℕ) < 3 ∧
      (CosineScheduler.call ⟨1, 0, 1, 2⟩ 0 = some 0 ∧
        CosineScheduler.call ⟨1, 0, 1, 2⟩ 1 = some 1 ∧
        CosineScheduler.call ⟨1, 0, 1, 2⟩ 2 = some 0 ∧
        CosineScheduler.call ⟨1, 0, 1, 2⟩ 3 = some 0) :=
  ⟨by norm_num, by norm_num, by norm_num,
    cosine_boundary_values ⟨1, 0, 1, 2⟩ 3 (by norm_num) (by norm_num) (by norm_num)⟩

/-- C4: under a valid configuration (`warmup_iters < max_iters`) the
query never fails for any iteration, and whenever the middle branch is
reached (`warmup_iters ≤ t ≤ max_iters`) the asserted invariant
`0 ≤ decay_ratio ≤ 1` holds. -/
theorem cosine_assert_holds (s : CosineScheduler) (t : ℕ)
    (hm : s.warmup_iters < s.max_iters) :
    (s.call t).isSome = true ∧
      (s.warmup_iters ≤ t → t ≤ s.max_iters →
        0 ≤ s.decay_ratio t ∧ s.decay_ratio t ≤ 1) := by
  have hratio : s.warmup_iters ≤ t → t ≤ s.max_iters →
      0 ≤ s.decay_ratio t ∧ s.decay_ratio t ≤ 1 := by
    intro h1 h2
    have hw : (s.warmup_iters : ℝ) ≤ t := by exact_mod_cast h1
    have hM : (t : ℝ) ≤ s.max_iters := by exact_mod_cast h2
    have hwM : (s.warmup_iters : ℝ) < s.max_iters := by exact_mod_cast hm
    rw [CosineScheduler.decay_ratio]
    constructor
    · exact div_nonneg (by linarith) (by linarith)
    · rw [div_le_one (by linarith)]
      linarith
  refine ⟨?_, hratio⟩
  rw [CosineScheduler.call]
  by_cases h1 : t < s.warmup_iters
  · rw [if_pos h1]; rfl
  · rw [if_neg h1]
    by_cases h2 : t > s.max_iters
    · rw [if_pos h2]; rfl
    · rw [if_neg h2, if_neg (by omega), if_pos (hratio (by omega) (by omega))]
      rfl

/-- C4 witness: at the configuration `warmup_iters = 1, max_iters = 2`
and the in-branch iteration 1 the query succeeds and the asserted
invariant holds. -/
theorem cosine_assert_holds_witness :
    (1 : ℕ) < 2 ∧
      ((CosineScheduler.call ⟨1, 0, 1, 2⟩ 1).isSome = true ∧
        ((1 : ℕ) ≤ 1 → (1 : ℕ) ≤ 2 →
          0 ≤ CosineScheduler.decay_ratio ⟨1, 0, 1, 2⟩ 1 ∧
            CosineScheduler.decay_ratio ⟨1, 0, 1, 2⟩ 1 ≤ 1)) :=
  ⟨by norm_num, cosine_assert_holds ⟨1, 0, 1, 2⟩ 1 (by norm_num)⟩

/-- Embeds the `StepLR` dataclass: step decay, with `max_iters` acting as
the step size. -/
structure StepLR where
  max_lr : ℝ
  max_iters : ℕ
  gamma : ℝ

/-- Embeds `StepLR.__call__`:
`max_lr * gamma ** (iteration // max_iters)`.  Python floor division of
non-negative integers is natural-number division. -/
noncomputable def StepLR.call (s : StepLR) (t : ℕ) : ℝ :=
  s.max_lr * s.gamma ^ (t / s.max_iters)

/-- Embeds the `MultiStepLR` dataclass: decay at each milestone. -/
structure MultiStepLR where
  max_lr : ℝ
  max_iters : ℕ
  gamma : ℝ
  milestones : List ℕ

/-- Embeds `MultiStepLR.__call__`:
`max_lr * gamma ** sum([iteration >= m for m in milestones])`; the Python
sum of booleans is the sum of the 0/1 indicators. -/
noncomputable def MultiStepLR.call (s : MultiStepLR) (t : ℕ) : ℝ :=
  s.max_lr * s.gamma ^ (s.milestones.map (fun m => if t ≥ m then 1 else 0)).sum

/-- Embeds the `LinearLR` dataclass: linear decay. -/
structure LinearLR where
  max_lr : ℝ
  max_iters : ℕ

/-- Embeds `LinearLR.__call__`: `max_lr * (1 - iteration / max_iters)`
with real division. -/
noncomputable def LinearLR.call (s : LinearLR) (t : ℕ) : ℝ :=
  s.max_lr * (1 - (t : ℝ) / s.max_iters)

/-- The sum of 0/1 indicators over a list is the count of elements
satisfying the predicate. -/
theorem sum_indicator_eq_countP (t : ℕ) (l : List ℕ) :
    (l.map (fun m => if t ≥ m then 1 else 0)).sum = l.countP (fun m => m ≤ t) := by
  induction l with
  | nil => rfl
  | cons a l ih =>
    rw [List.map_cons, List.sum_cons, ih, List.countP_cons]
    by_cases h : a ≤ t
    · simp [h, Nat.add_comm]
    · simp [h]

/-- C7: the multi-step rate is `max_lr * gamma ^ k` where `k` counts the
milestones `m` with `m ≤ t`; with milestones `[10, 30]`, `gamma = 0.1`
and `max_lr = 1` the rates at iterations 5, 10, 29, 30 are
1, 0.1, 0.1, 0.01. -/
theorem multistep_count_formula (s : MultiStepLR) (t : ℕ) :
    s.call t = s.max_lr * s.gamma ^ s.milestones.countP (fun m => m ≤ t) ∧
      MultiStepLR.call ⟨1, 100000, 0.1, [10, 30]⟩ 5 = 1 ∧
      MultiStepLR.call ⟨1, 100000, 0.1, [10, 30]⟩ 10 = 0.1 ∧
      MultiStepLR.call ⟨1, 100000, 0.1, [10, 30]⟩ 29 = 0.1 ∧
      MultiStepLR.call ⟨1, 100000, 0.1, [10, 30]⟩ 30 = 0.01 := by
  refine ⟨?_, ?_, ?_, ?_, ?_⟩
  · rw [MultiStepLR.call, sum_indicator_eq_countP]
  · norm_num [MultiStepLR.call]
  · norm_num [MultiStepLR.call]
  · norm_num [MultiStepLR.call]
  · norm_num [MultiStepLR.call]

/-- C8: the step rate equals `max_lr * gamma ^ k` throughout the
half-open interval `[k * max_iters, (k+1) * max_iters)`, and drops by the
factor `gamma` at the next boundary. -/
theorem step_interval_constant (s : StepLR) (k t : ℕ)
    (hM : 1 ≤ s.max_iters) (h1 : k * s.max_iters ≤ t) (h2 : t < (k + 1) * s.max_iters) :
    s.call t = s.max_lr * s.gamma ^ k ∧
      s.call ((k + 1) * s.max_iters) = s.gamma * s.call (k * s.max_iters) := by
  have hM0 : s.max_iters ≠ 0 := by omega
  have hdiv : t / s.max_iters = k := Nat.div_eq_of_lt_le h1 h2
  have hk : ∀ j : ℕ, (j * s.max_iters) / s.max_iters = j := fun j =>
    Nat.mul_div_cancel j (by omega)
  constructor
  · rw [StepLR.call, hdiv]
  · rw [StepLR.call, StepLR.call, hk, hk, pow_succ]
    ring

/-- C8 witness: for `max_lr = 1, max_iters = 2, gamma = 0.5`, iteration 3
lies in the interval for `k = 1` and has rate `0.5`; the rate at the next
boundary (iteration 4) is `0.5` times the rate at iteration 2. -/
theorem step_interval_constant_witness :
    1 ≤ (2 : ℕ) ∧ 1 * 2 ≤ (3 : ℕ) ∧ (3 : ℕ) < (1 + 1) * 2 ∧
      (StepLR.call ⟨1, 2, 0.5⟩ 3 = 1 * 0.5 ^ 1 ∧
        StepLR.call ⟨1, 2, 0.5⟩ ((1 + 1) * 2) = 0.5 * StepLR.call ⟨1, 2, 0.5⟩ (1 * 2)) :=
  ⟨by norm_num, by norm_num, by norm_num,
    step_interval_constant ⟨1, 2, 0.5⟩ 1 3 (by norm_num) (by norm_num) (by norm_num)⟩

/-- C9: with `max_lr = 1` and `max_iters = 100` the linear rate is 1 at
iteration 0, 0 at iteration 100 and 0.5 at iteration 50; and for any
configuration with positive `max_lr`, `max_iters ≥ 1` and an iteration
past `max_iters`, the rate is strictly negative (no clamping). -/
theorem linear_values_negative (s : LinearLR) (t : ℕ)
    (hl : 0 < s.max_lr) (hM : 1 ≤ s.max_iters) (ht : s.max_iters < t) :
    LinearLR.call ⟨1, 100⟩ 0 = 1 ∧ LinearLR.call ⟨1, 100⟩ 100 = 0 ∧
      LinearLR.call ⟨1, 100⟩ 50 = 0.5 ∧ s.call t < 0 := by
  refine ⟨by norm_num [LinearLR.call], by norm_num [LinearLR.call],
    by norm_num [LinearLR.call], ?_⟩
  have hM0 : (0 : ℝ) < s.max_iters := by
    have : (1 : ℕ) ≤ s.max_iters := hM
    exact_mod_cast Nat.lt_of_lt_of_le Nat.zero_lt_one this
  have htR : (s.max_iters : ℝ) < t := by exact_mod_cast ht
  have hdiv : 1 < (t : ℝ) / s.max_iters := (one_lt_div hM0).mpr htR
  rw [LinearLR.call]
  exact mul_neg_of_pos_of_neg hl (by linarith)

/-- C9 witness: `max_lr = 1, max_iters = 100` at iteration 101 gives a
strictly negative rate, alongside the concrete values at 0, 100, 50. -/
theorem linear_values_negative_witness :
    (0 : ℝ) < 1 ∧ 1 ≤ (100 : ℕ) ∧ (100 : ℕ) < 101 ∧
      (LinearLR.call ⟨1, 100⟩ 0 = 1 ∧ LinearLR.call ⟨1, 100⟩ 100 = 0 ∧
        LinearLR.call ⟨1, 100⟩ 50 = 0.5 ∧ LinearLR.call ⟨1, 100⟩ 101 < 0) :=
  ⟨by norm_num, by norm_num, by norm_num,
    linear_values_negative ⟨1, 100⟩ 101 (by norm_num) (by norm_num) (by norm_num)⟩

/-- Embeds the `CyclicLR` dataclass: triangular cyclic policy. -/
structure CyclicLR where
  max_lr : ℝ
  min_lr : ℝ
  max_iters : ℕ

/-- The local `cycle = math.floor(1 + iteration / (2 * max_iters))` of
`CyclicLR.__call__` (real division, then floor). -/
noncomputable def CyclicLR.cycle (s : CyclicLR) (t : ℕ) : ℤ :=
  ⌊1 + (t : ℝ) / (2 * s.max_iters)⌋

/-- The local `x = abs(iteration / max_iters - 2 * cycle + 1)` of
`CyclicLR.__call__`. -/
noncomputable def CyclicLR.x (s : CyclicLR) (t : ℕ) : ℝ :=
  |(t : ℝ) / s.max_iters - 2 * (s.cycle t : ℝ) + 1|

/-- Embeds `CyclicLR.__call__`:
`min_lr + (max_lr - min_lr) * max(0, 1 - x)`. -/
noncomputable def CyclicLR.call (s : CyclicLR) (t : ℕ) : ℝ :=
  s.min_lr + (s.max_lr - s.min_lr) * max 0 (1 - s.x t)

/-- C5: with `max_iters ≥ 1` the cyclic rate is periodic with period
`2 * max_iters`, attains `max_lr` at `t = max_iters * (2k+1)` and
`min_lr` at `t = 2 * max_iters * k`, for every `k ≥ 0`. -/
theorem cyclic_periodic_peak_trough (s : CyclicLR) (t k : ℕ)
    (hM : 1 ≤ s.max_iters) :
    s.call (t + 2 * s.max_iters) = s.call t ∧
      s.call (s.max_iters * (2 * k + 1)) = s.max_lr ∧
      s.call (2 * s.max_iters * k) = s.min_lr := by
  have hM0 : (s.max_iters : ℝ) ≠ 0 := by
    have : (0 : ℕ) < s.max_iters := hM
    positivity
  refine ⟨?_, ?_, ?_⟩
  · have hcycle : s.cycle (t + 2 * s.max_iters) = s.cycle t + 1 := by
      rw [CyclicLR.cycle, CyclicLR.cycle]
      have harg : 1 + ((t + 2 * s.max_iters : ℕ) : ℝ) / (2 * s.max_iters) =
          (1 + (t : ℝ) / (2 * s.max_iters)) + 1 := by
        push_cast
        field_simp
        ring
      rw [harg, Int.floor_add_one]
    have hx : s.x (t + 2 * s.max_iters) = s.x t := by
      rw [CyclicLR.x, CyclicLR.x, hcycle]
      have harg : ((t + 2 * s.max_iters : ℕ) : ℝ) / s.max_iters -
          2 * ((s.cycle t + 1 : ℤ) : ℝ) + 1 =
          (t : ℝ) / s.max_iters - 2 * (s.cycle t : ℝ) + 1 := by
        push_cast
        field_simp
        ring
      rw [harg]
    rw [CyclicLR.call, CyclicLR.call, hx]
  · have hcycle : s.cycle (s.max_iters * (2 * k + 1)) = k + 1 := by
      rw [CyclicLR.cycle]
      have harg : 1 + ((s.max_iters * (2 * k + 1) : ℕ) : ℝ) / (2 * s.max_iters) =
          (k : ℝ) + 3 / 2 := by
        push_cast
        field_simp
        ring
      rw [harg, Int.floor_eq_iff]
      constructor
      · push_cast; linarith
      · push_cast; linarith
    have hx : s.x (s.max_iters * (2 * k + 1)) = 0 := by
      rw [CyclicLR.x, hcycle]
      have harg : ((s.max_iters * (2 * k + 1) : ℕ) : ℝ) / s.max_iters -
          2 * ((k + 1 : ℤ) : ℝ) + 1 = 0 := by
        push_cast
        field_simp
        ring
      rw [harg, abs_zero]
    rw [CyclicLR.call, hx]
    norm_num
  · have hcycle : s.cycle (2 * s.max_iters * k) = k + 1 := by
      rw [CyclicLR.cycle]
      have harg : 1 + ((2 * s.max_iters * k : ℕ) : ℝ) / (2 * s.max_iters) =
          ((k + 1 : ℤ) : ℝ) := by
        push_cast
        field_simp
        ring
      rw [harg, Int.floor_intCast]
    have hx : s.x (2 * s.max_iters * k) = 1 := by
      rw [CyclicLR.x, hcycle]
      have harg : ((2 * s.max_iters * k : ℕ) : ℝ) / s.max_iters -
          2 * ((k + 1 : ℤ) : ℝ) + 1 = -1 := by
        push_cast
        field_simp
        ring
      rw [harg]
      norm_num
    rw [CyclicLR.call, hx]
    norm_num

/-- C5 witness: with `max_lr = 2, min_lr = 1, max_iters = 1`, `t = 0` and
`k = 0`: periodicity at the first period, the peak at iteration 1, and
the trough at iteration 0. -/
theorem cyclic_periodic_peak_trough_witness :
    1 ≤ (1 : ℕ) ∧
      (CyclicLR.call ⟨2, 1, 1⟩ (0 + 2 * 1) = CyclicLR.call ⟨2, 1, 1⟩ 0 ∧
        CyclicLR.call ⟨2, 1, 1⟩ (1 * (2 * 0 + 1)) = 2 ∧
        CyclicLR.call ⟨2, 1, 1⟩ (2 * 1 * 0) = 1) :=
  ⟨by norm_num, cyclic_periodic_peak_trough ⟨2, 1, 1⟩ 0 0 (by norm_num)⟩

/-- Embeds the `OneCycleLR` dataclass: one-cycle policy with two linear
segments. -/
structure OneCycleLR where
  max_lr : ℝ
  min_lr : ℝ
  max_iters : ℕ
  pct_start : ℝ

/-- The rising-branch formula of `OneCycleLR.__call__`
(`min_lr + (max_lr - min_lr) * (iteration / (pct_start * max_iters))`),
as a function of a real iteration so that it can be evaluated at the
junction point `pct_start * max_iters`. -/
noncomputable def OneCycleLR.rising (s : OneCycleLR) (t : ℝ) : ℝ :=
  s.min_lr + (s.max_lr - s.min_lr) * (t / (s.pct_start * s.max_iters))

/-- The falling-branch formula of `OneCycleLR.__call__`
(`max_lr - (max_lr - min_lr) * ((iteration - pct_start * max_iters) /
((1 - pct_start) * max_iters))`). -/
noncomputable def OneCycleLR.falling (s : OneCycleLR) (t : ℝ) : ℝ :=
  s.max_lr - (s.max_lr - s.min_lr) *
    ((t - s.pct_start * s.max_iters) / ((1 - s.pct_start) * s.max_iters))

/-- Embeds `OneCycleLR.__call__`: the rising branch when
`iteration / max_iters <= pct_start`, otherwise the falling branch. -/
noncomputable def OneCycleLR.call (s : OneCycleLR) (t : ℕ) : ℝ :=
  if (t : ℝ) / s.max_iters ≤ s.pct_start then s.rising t else s.falling t

/-- C6: with `0 < pct_start < 1` and `max_iters ≥ 1` the two branch
formulas agree at the junction `t = pct_start * max_iters` (both give
`max_lr`, so the rate is continuous there), and the rate is `min_lr` at
iteration 0 and at iteration `max_iters`. -/
theorem onecycle_junction_continuous (s : OneCycleLR)
    (h1 : 0 < s.pct_start) (h2 : s.pct_start < 1) (hM : 1 ≤ s.max_iters) :
    s.rising (s.pct_start * s.max_iters) = s.max_lr ∧
      s.falling (s.pct_start * s.max_iters) = s.max_lr ∧
      s.call 0 = s.min_lr ∧ s.call s.max_iters = s.min_lr := by
  have hMpos : (0 : ℝ) < s.max_iters := by
    have : (0 : ℕ) < s.max_iters := hM
    exact_mod_cast this
  have hpM : s.pct_start * s.max_iters ≠ 0 := ne_of_gt (mul_pos h1 hMpos)
  refine ⟨?_, ?_, ?_, ?_⟩
  · rw [OneCycleLR.rising, div_self hpM]
    ring
  · rw [OneCycleLR.falling, sub_self, zero_div, mul_zero, sub_zero]
  · rw [OneCycleLR.call, if_pos (by simpa using le_of_lt h1)]
    rw [OneCycleLR.rising]
    simp
  · rw [OneCycleLR.call, if_neg (by rw [div_self (ne_of_gt hMpos)]; linarith)]
    rw [OneCycleLR.falling]
    have hd : ((s.max_iters : ℝ) - s.pct_start * s.max_iters) /
        ((1 - s.pct_start) * s.max_iters) = 1 := by
      rw [div_eq_one_iff_eq (mul_ne_zero (by linarith) (ne_of_gt hMpos))]
      ring
    rw [hd]
    ring

/-- C6 witness: with `max_lr = 2, min_lr = 1, max_iters = 10,
pct_start = 0.5`: both branch formulas give 2 at the junction `t = 5`,
and the rate at iterations 0 and 10 is 1. -/
theorem onecycle_junction_continuous_witness :
    (0 : ℝ) < 0.5 ∧ (0.5 : ℝ) < 1 ∧ 1 ≤ (10 : ℕ) ∧
      (OneCycleLR.rising ⟨2, 1, 10, 0.5⟩ (0.5 * 10) = 2 ∧
        OneCycleLR.falling ⟨2, 1, 10, 0.5⟩ (0.5 * 10) = 2 ∧
        OneCycleLR.call ⟨2, 1, 10, 0.5⟩ 0 = 1 ∧
        OneCycleLR.call ⟨2, 1, 10, 0.5⟩ 10 = 1) :=
  ⟨by norm_num, by norm_num, by norm_num,
    onecycle_junction_continuous ⟨2, 1, 10, 0.5⟩ (by norm_num) (by norm_num) (by norm_num)⟩

/-- Embeds the `CosineAnnealingWarmRestarts` dataclass. -/
structure CosineAnnealingWarmRestarts where
  max_lr : ℝ
  min_lr : ℝ
  warmup_steps : ℕ
  T_mult : ℕ

/-- Fuel-bounded unfolding of the while loop of
`CosineAnnealingWarmRestarts.__call__`
(`while iteration >= T_i: iteration -= T_i; T_i *= T_mult`), with the
arguments in order fuel, `iteration`, `T_i`, `T_mult`.  Returns the
final `(iteration, T_i)` pair when the loop exits within the fuel bound,
and `none` otherwise; the loop has no other effect, since it only
updates the two locals. -/
def restartsLoop : ℕ → ℕ → ℕ → ℕ → Option (ℕ × ℕ)
  | 0, _, _, _ => none
  | fuel + 1, iteration, T_i, m =>
    if iteration ≥ T_i then restartsLoop fuel (iteration - T_i) (T_i * m) m
    else some (iteration, T_i)

/-- The while loop never exits from the given start state, whatever the
fuel: this is how a non-terminating Python loop shows up in the
fuel-bounded model. -/
def restartsDiverges (iteration T_i m : ℕ) : Prop :=
  ∀ fuel, restartsLoop fuel iteration T_i m = none

/-- With `T_mult ≥ 1` and a positive cycle length, each loop pass
shortens `iteration` by at least one, so fuel `iteration + 1` always
suffices for the loop to exit. -/
theorem restartsLoop_isSome (m : ℕ) (hm : 1 ≤ m) :
    ∀ fuel iteration T_i, 1 ≤ T_i → iteration + 1 ≤ fuel →
      (restartsLoop fuel iteration T_i m).isSome = true := by
  intro fuel
  induction fuel with
  | zero =>
    intro iteration T_i _ hfuel
    omega
  | succ fuel ih =>
    intro iteration T_i hT hfuel
    rw [restartsLoop]
    by_cases h : iteration ≥ T_i
    · rw [if_pos h]
      exact ih (iteration - T_i) (T_i * m) (Nat.mul_pos hT hm) (by omega)
    · rw [if_neg h]
      rfl

/-- Once the state reaches `iteration` arbitrary, `T_i = 0`, `T_mult = 0`,
the loop condition `iteration >= 0` always holds and the state never
changes, so the loop runs forever. -/
theorem restartsLoop_stuck_at_zero (x : ℕ) : restartsDiverges x 0 0 := by
  intro fuel
  induction fuel generalizing x with
  | zero => rfl
  | succ fuel ih =>
    rw [restartsLoop, if_pos (Nat.zero_le x)]
    simpa using ih (x - 0)

/-- With `T_mult = 0` and an iteration at or past the first cycle length,
the first pass sets `T_i` to 0 and the loop then runs forever. -/
theorem restartsLoop_diverges (t w : ℕ) (ht : w ≤ t) : restartsDiverges t w 0 := by
  intro fuel
  cases fuel with
  | zero => rfl
  | succ fuel =>
    rw [restartsLoop, if_pos ht, Nat.mul_zero]
    exact restartsLoop_stuck_at_zero (t - w) fuel

/-- Embeds `CosineAnnealingWarmRestarts.__call__`.  `T_cur` is computed
before the loop as `iteration % self.warmup_steps` (a `ZeroDivisionError`
when `warmup_steps = 0`, modelled as `none`) and the returned formula
uses only `T_cur` and `warmup_steps`.  The while loop is run with fuel
`iteration + 1`: by `restartsLoop_isSome` this fuel suffices whenever
the loop terminates at all for `T_mult ≥ 1`, and by
`restartsLoop_diverges` the loop never exits for `T_mult = 0` once
`iteration ≥ warmup_steps`, so `none` faithfully marks the
non-returning call. -/
noncomputable def CosineAnnealingWarmRestarts.call
    (s : CosineAnnealingWarmRestarts) (t : ℕ) : Option ℝ :=
  if s.warmup_steps = 0 then none
  else
    match restartsLoop (t + 1) t s.warmup_steps s.T_mult with
    | some _ => some (s.min_lr + (s.max_lr - s.min_lr) *
        (1 + Real.cos (Real.pi * ((t % s.warmup_steps : ℕ) : ℝ) / (s.warmup_steps : ℝ))) / 2)
    | none => none

/-- C1: with `warmup_steps ≥ 1` and `T_mult ≥ 1` the warm-restarts query
returns exactly
`min_lr + (max_lr - min_lr) * (1 + cos (pi * (t % warmup_steps) / warmup_steps)) / 2`,
i.e. the cycle-consuming loop has no effect on the returned value, the
output depends on `t` only through `t % warmup_steps` (the first cycle
length) for every `T_mult`, and in particular the output is periodic in
`t` with period `warmup_steps`. -/
theorem warmrestarts_fixed_modulo (s : CosineAnnealingWarmRestarts) (t : ℕ)
    (hw : 1 ≤ s.warmup_steps) (hm : 1 ≤ s.T_mult) :
    s.call t = some (s.min_lr + (s.max_lr - s.min_lr) *
        (1 + Real.cos (Real.pi * ((t % s.warmup_steps : ℕ) : ℝ) / (s.warmup_steps : ℝ))) / 2) ∧
      s.call (t + s.warmup_steps) = s.call t := by
  have key : ∀ u : ℕ, s.call u = some (s.min_lr + (s.max_lr - s.min_lr) *
      (1 + Real.cos (Real.pi * ((u % s.warmup_steps : ℕ) : ℝ) / (s.warmup_steps : ℝ))) / 2) := by
    intro u
    rw [CosineAnnealingWarmRestarts.call, if_neg (by omega)]
    obtain ⟨r, hr⟩ := Option.isSome_iff_exists.mp
      (restartsLoop_isSome s.T_mult hm (u + 1) u s.warmup_steps hw (le_refl _))
    rw [hr]
  refine ⟨key t, ?_⟩
  rw [key t, key (t + s.warmup_steps), Nat.add_mod_right]

/-- C1 witness: with `max_lr = 1, min_lr = 0, warmup_steps = 1,
T_mult = 1` at iteration 0: the closed-form value and periodicity at the
first period. -/
theorem warmrestarts_fixed_modulo_witness :
    1 ≤ (1 : ℕ) ∧ 1 ≤ (1 : ℕ) ∧
      (CosineAnnealingWarmRestarts.call ⟨1, 0, 1, 1⟩ 0 =
          some (0 + (1 - 0) *
            (1 + Real.cos (Real.pi * ((0 % 1 : ℕ) : ℝ) / ((1 : ℕ) : ℝ))) / 2) ∧
        CosineAnnealingWarmRestarts.call ⟨1, 0, 1, 1⟩ (0 + 1) =
          CosineAnnealingWarmRestarts.call ⟨1, 0, 1, 1⟩ 0) :=
  ⟨le_refl 1, le_refl 1, warmrestarts_fixed_modulo ⟨1, 0, 1, 1⟩ 0 (le_refl 1) (le_refl 1)⟩

/-- C10: with `warmup_steps ≥ 1` and `T_mult ≥ 1` the cycle-consuming
loop exits within `t + 1` passes for every iteration `t`, so the query
is total under these preconditions; and the precondition on `T_mult` is
needed, because with `T_mult = 0` the loop runs forever as soon as
`t ≥ warmup_steps`. -/
theorem warmrestarts_loop_terminates (s : CosineAnnealingWarmRestarts) (t : ℕ)
    (hw : 1 ≤ s.warmup_steps) (hm : 1 ≤ s.T_mult) :
    (restartsLoop (t + 1) t s.warmup_steps s.T_mult).isSome = true ∧
      (s.call t).isSome = true ∧
      (s.warmup_steps ≤ t → restartsDiverges t s.warmup_steps 0) := by
  have h1 := restartsLoop_isSome s.T_mult hm (t + 1) t s.warmup_steps hw (le_refl _)
  refine ⟨h1, ?_, fun ht => restartsLoop_diverges t s.warmup_steps ht⟩
  rw [CosineAnnealingWarmRestarts.call, if_neg (by omega)]
  obtain ⟨r, hr⟩ := Option.isSome_iff_exists.mp h1
  rw [hr]
  rfl

/-- C10 witness: with `warmup_steps = 1, T_mult = 1` at iteration 1 the
loop exits and the query succeeds, while the same start state with
`T_mult = 0` loops forever. -/
theorem warmrestarts_loop_terminates_witness :
    1 ≤ (1 : ℕ) ∧ 1 ≤ (1 : ℕ) ∧
      ((restartsLoop (1 + 1) 1 1 1).isSome = true ∧
        (CosineAnnealingWarmRestarts.call ⟨1, 0, 1, 1⟩ 1).isSome = true ∧
        ((1 : ℕ) ≤ 1 → restartsDiverges 1 1 0)) :=
  ⟨le_refl 1, le_refl 1, warmrestarts_loop_terminates ⟨1, 0, 1, 1⟩ 1 (le_refl 1) (le_refl 1)⟩
